import Mathlib

/-!
Verification development for the `agent-toolkit` filesystem package:
the glob pattern compiler (`src/core/glob.ts`) and the grep/ripgrep
output reconciliation layer (`src/core/grep.ts`).

Paths and file contents are modelled as Lean `String`s / `List Char`s
(one `Char` per Unicode scalar value).  The host is modelled as POSIX:
`path.sep = "/"`, so the source's `split(path.sep).join("/")`
normalisation steps are identities and are modelled as such.
-/

namespace Toolkit

/-! ## JavaScript character classes -/

/-- The four ECMAScript line terminator characters.  In a JavaScript
regular expression without the `s` flag, the metacharacter `.` matches
every character except these. -/
def isLineTerminator (c : Char) : Bool :=
  c = '\n' || c = '\r' || c.toNat = 0x2028 || c.toNat = 0x2029

/-- Semantics of the regex metacharacter `.` as produced by `new RegExp`
without flags: any character that is not a line terminator. -/
def jsDot (c : Char) : Bool := !(isLineTerminator c)

/-! ## The glob compiler (`globToRegex`, glob.ts lines 130-166)

`globToRegex` scans the pattern left to right and appends, for each
construct, a fixed regex fragment:

* `**/`  → `(?:.*/)?`
* `**` (not followed by `/`) → `.*`
* `*`   → `[^/]*`
* `?`   → `[^/]`
* a regex metacharacter (`.+^$\x7b\x7d()|[]\`) → the escaped character,
  i.e. a literal match of that character
* any other character → itself, a literal match

and the result is wrapped as `^...$`.  We embed the produced regex as a
token list; every fragment above is one token. -/

inductive GlobTok where
  | lit (c : Char)  -- a literal character (escaped or plain)
  | one             -- `?`, compiled to `[^/]`
  | star            -- `*`, compiled to `[^/]*`
  | dstar           -- `**`, compiled to `.*`
  | dstarSlash      -- `**/`, compiled to `(?:.*/)?`
deriving Repr, DecidableEq

/-- The scan of `globToRegex`: the `i`-indexed loop with its lookahead
(`pattern[i+1] === '*'`, `pattern[i+2] === '/'`) is exactly this
left-to-right pattern match on the character list. -/
def globToRegexToks : List Char → List GlobTok
  | [] => []
  | '*' :: '*' :: '/' :: rest => .dstarSlash :: globToRegexToks rest
  | '*' :: '*' :: rest => .dstar :: globToRegexToks rest
  | '*' :: rest => .star :: globToRegexToks rest
  | '?' :: rest => .one :: globToRegexToks rest
  | c :: rest => .lit c :: globToRegexToks rest

/-! ## Matcher semantics

Anchored acceptance of a token list on a character list.  A Boolean
regex test accepts iff some decomposition of the string matches the
sequence of fragments; the loop combinators below enumerate the
decompositions. -/

/-- `starLoop p k s`: some prefix of `s` consisting of characters
satisfying `p` is consumed, and `k` accepts the corresponding suffix.
This is the (anchored) semantics of a regex fragment `C*` (with
character class `C = p`) followed by a continuation `k`. -/
def starLoop (p : Char → Bool) (k : List Char → Bool) : List Char → Bool
  | [] => k []
  | c :: cs => k (c :: cs) || (p c && starLoop p k cs)

/-- `slashTail p k s`: `s` splits as `u ++ '/' :: v` where every
character of `u` satisfies `p` and `k` accepts `v`.  This is the
semantics of the regex fragment `C*/` followed by `k`. -/
def slashTail (p : Char → Bool) (k : List Char → Bool) : List Char → Bool
  | [] => false
  | c :: cs => (c = '/' && k cs) || (p c && slashTail p k cs)

/-- Continuation for a literal character. -/
def litTail (c : Char) (k : List Char → Bool) : List Char → Bool
  | [] => false
  | x :: xs => x = c && k xs

/-- Continuation for `[^/]` (the compilation of `?`). -/
def oneTail (k : List Char → Bool) : List Char → Bool
  | [] => false
  | x :: xs => decide (x ≠ '/') && k xs

/-- Anchored acceptance of the compiled regex: the semantics of
`new RegExp("^" ++ fragments ++ "$").test`, fragment by fragment.
`.*` (from `**`) consumes `jsDot` characters; `(?:.*/)?` (from `**/`)
either consumes nothing or consumes `jsDot` characters up to a `/`. -/
def regexAccept : List GlobTok → List Char → Bool
  | [] => List.isEmpty
  | .lit c :: ts => litTail c (regexAccept ts)
  | .one :: ts => oneTail (regexAccept ts)
  | .star :: ts => starLoop (fun c => decide (c ≠ '/')) (regexAccept ts)
  | .dstar :: ts => starLoop jsDot (regexAccept ts)
  | .dstarSlash :: ts => fun s =>
      regexAccept ts s || slashTail jsDot (regexAccept ts) s

/-- The glob test of glob.ts: compile the pattern, test the (already
`/`-normalised) relative path against the anchored regex. -/
def globRegexTest (pattern path : String) : Bool :=
  regexAccept (globToRegexToks pattern.data) path.data

example : globRegexTest "a/**/b" "a/b" = true := by decide
example : globRegexTest "a/**/b" "a/x/y/b" = true := by decide
example : globRegexTest "*" "ab.txt" = true := by decide
example : globRegexTest "*" "a/b" = false := by decide
example : globRegexTest "?x" "ax" = true := by decide
example : globRegexTest "?x" "/x" = false := by decide
example : globRegexTest "**" "a/b/c" = true := by decide
example : globRegexTest "*.txt" "file1.txt" = true := by decide
example : globRegexTest "[a]b" "[a]b" = true := by decide
example : globRegexTest "[a]b" "ab" = false := by decide
example : globRegexTest "**/*.ts" "subdir/deep/file.ts" = true := by decide
example : globRegexTest "**/*.ts" "code.ts" = true := by decide

/-! ## The glob grammar as specified

The specification's grammar table reads, per token:
`*` any run of characters excluding `/`; `?` exactly one character
excluding `/`; `**/` zero or more complete path segments (each ending
in `/`), including zero; `**` (not followed by `/`) any characters
including `/`; any other character itself, literally.  The whole
pattern is anchored at both ends. -/

/-- Consume one complete path segment: characters satisfying `p` up to
and including the first `/`.  A segment body cannot contain `/`, so a
decomposition into segments must cut at the first `/`; consuming one
segment is therefore deterministic. -/
def dropSeg (p : Char → Bool) : List Char → Option (List Char)
  | [] => none
  | c :: cs => if c = '/' then some cs else if p c then dropSeg p cs else none

theorem dropSeg_length {p : Char → Bool} :
    ∀ {s v : List Char}, dropSeg p s = some v → v.length < s.length := by
  intro s
  induction s with
  | nil => intro v h; simp [dropSeg] at h
  | cons c cs ih =>
    intro v h
    by_cases hc : c = '/'
    · simp [dropSeg, hc] at h
      subst h
      simp
    · by_cases hp : p c
      · simp [dropSeg, hc, hp] at h
        have := ih h
        simp
        omega
      · simp [dropSeg, hc, hp] at h

/-- Zero or more complete path segments, each made of `p`-characters
and ending in `/`, followed by the continuation `k`: either nothing is
consumed, or one segment is consumed and the loop repeats. -/
def segStar (p : Char → Bool) (k : List Char → Bool) (s : List Char) : Bool :=
  k s ||
    match h : dropSeg p s with
    | some v => segStar p k v
    | none => false
termination_by s.length
decreasing_by exact dropSeg_length h

/-- The matcher prescribed by the specification's grammar, read
literally: `**` matches any characters (including `/`), and `**/`
matches zero or more complete path segments with no restriction on the
characters inside a segment. -/
def claimAccept : List GlobTok → List Char → Bool
  | [] => List.isEmpty
  | .lit c :: ts => litTail c (claimAccept ts)
  | .one :: ts => oneTail (claimAccept ts)
  | .star :: ts => starLoop (fun c => decide (c ≠ '/')) (claimAccept ts)
  | .dstar :: ts => starLoop (fun _ => true) (claimAccept ts)
  | .dstarSlash :: ts => segStar (fun _ => true) (claimAccept ts)

/-- The grammar amended for the line-terminator behaviour of the
JavaScript `.` metacharacter: `**` matches any characters including `/`
but excluding line terminators, and the segments consumed by `**/` may
not contain line terminators.  All other tokens are as specified. -/
def amendedAccept : List GlobTok → List Char → Bool
  | [] => List.isEmpty
  | .lit c :: ts => litTail c (amendedAccept ts)
  | .one :: ts => oneTail (amendedAccept ts)
  | .star :: ts => starLoop (fun c => decide (c ≠ '/')) (amendedAccept ts)
  | .dstar :: ts => starLoop jsDot (amendedAccept ts)
  | .dstarSlash :: ts => segStar jsDot (amendedAccept ts)

/-! Equivalence of the iterated-segment semantics of `**/` with the
semantics of the compiled fragment `(?:.*/)?`. -/

theorem slashTail_of_dropSeg_none {p : Char → Bool} {k : List Char → Bool} :
    ∀ {s : List Char}, dropSeg p s = none → slashTail p k s = false := by
  intro s
  induction s with
  | nil => intro _; rfl
  | cons c cs ih =>
    intro h
    by_cases hc : c = '/'
    · simp [dropSeg, hc] at h
    · by_cases hp : p c
      · simp [dropSeg, hc, hp] at h
        simp [slashTail, hc, hp, ih h]
      · simp [slashTail, hc, hp]

theorem slashTail_of_dropSeg_some {p : Char → Bool} {k : List Char → Bool}
    (hp : p '/' = true) :
    ∀ {s v : List Char}, dropSeg p s = some v →
      slashTail p k s = (k v || slashTail p k v) := by
  intro s
  induction s with
  | nil => intro v h; simp [dropSeg] at h
  | cons c cs ih =>
    intro v h
    by_cases hc : c = '/'
    · simp [dropSeg, hc] at h
      subst h
      simp [slashTail, hc, hp]
    · by_cases hpc : p c
      · simp [dropSeg, hc, hpc] at h
        simp [slashTail, hc, hpc, ih h]
      · simp [dropSeg, hc, hpc] at h

/-- Iterating single-segment consumption is the language of the regex
fragment `(?:C*/)?`: either the continuation fires immediately, or the
string splits at some `/` whose prefix is all `C`-characters. -/
theorem segStar_eq_slashTail (p : Char → Bool) (hp : p '/' = true)
    (k : List Char → Bool) :
    ∀ s, segStar p k s = (k s || slashTail p k s) := by
  have H : ∀ n (s : List Char), s.length ≤ n →
      segStar p k s = (k s || slashTail p k s) := by
    intro n
    induction n with
    | zero =>
      intro s hs
      have hnil : s = [] := List.eq_nil_of_length_eq_zero (Nat.le_zero.mp hs)
      subst hnil
      rw [segStar]
      simp [dropSeg, slashTail]
    | succ n ih =>
      intro s hs
      rw [segStar]
      split
      next v h =>
        have hv := dropSeg_length h
        rw [ih v (by omega), slashTail_of_dropSeg_some hp h]
      next h =>
        rw [slashTail_of_dropSeg_none h]
  intro s
  exact H s.length s le_rfl

theorem amendedAccept_eq_regexAccept :
    ∀ ts : List GlobTok, amendedAccept ts = regexAccept ts := by
  intro ts
  induction ts with
  | nil => rfl
  | cons t ts ih =>
    cases t with
    | lit c => simp only [amendedAccept, regexAccept, ih]
    | one => simp only [amendedAccept, regexAccept, ih]
    | star => simp only [amendedAccept, regexAccept, ih]
    | dstar => simp only [amendedAccept, regexAccept, ih]
    | dstarSlash =>
      funext s
      simp only [amendedAccept, regexAccept, ih]
      rw [segStar_eq_slashTail jsDot (by decide) (regexAccept ts) s]

/-! ## Node `path` module (POSIX flavour)

The source drives everything through `path.join`, `path.normalize`,
`path.resolve` and `path.relative`.  We embed the POSIX versions.
`path.resolve` is modelled for the absolute arguments the source
actually passes (the workspace root is an absolute path). -/

/-- JavaScript `String.prototype.startsWith`. -/
def strStartsWith (s pre : String) : Bool := pre.data.isPrefixOf s.data

/-- JavaScript `String.prototype.endsWith`. -/
def strEndsWith (s suf : String) : Bool := suf.data.isSuffixOf s.data

/-- Split a character list on `/`; `cur` is the segment under
construction, in reverse. -/
def splitSlashAux (cur : List Char) : List Char → List (List Char)
  | [] => [cur.reverse]
  | c :: cs =>
    if c = '/' then cur.reverse :: splitSlashAux [] cs
    else splitSlashAux (c :: cur) cs

/-- `p.split("/")` as the source's path functions use it. -/
def splitSlash (p : String) : List String :=
  (splitSlashAux [] p.data).map (fun l => String.mk l)

example : splitSlash "/ws/a" = ["", "ws", "a"] := by decide
example : splitSlash "a//b" = ["a", "", "b"] := by decide

/-- The segment-resolution core of `path.normalize`: empty segments and
`.` are dropped; `..` pops the last real segment, is dropped at the
root of an absolute path, and is kept at the head of a relative path.
`acc` holds the processed segments in reverse. -/
def normSegs (isAbs : Bool) (acc : List String) : List String → List String
  | [] => acc.reverse
  | seg :: rest =>
    if seg = "" || seg = "." then normSegs isAbs acc rest
    else if seg = ".." then
      match acc with
      | [] => if isAbs then normSegs isAbs [] rest
              else normSegs isAbs [".."] rest
      | a :: as =>
        if a = ".." then normSegs isAbs (".." :: acc) rest
        else normSegs isAbs as rest
    else normSegs isAbs (seg :: acc) rest

/-- `path.posix.normalize`: resolve `.`/`..`/duplicate separators; an
empty result is `/` (absolute) or `.` (relative); a trailing separator
on a non-root input is preserved. -/
def posixNormalize (p : String) : String :=
  if p = "" then "."
  else
    let isAbs := strStartsWith p "/"
    let segs := normSegs isAbs [] (splitSlash p)
    let body := String.intercalate "/" segs
    let core :=
      if isAbs then (if body = "" then "/" else "/" ++ body)
      else (if body = "" then "." else body)
    if strEndsWith p "/" && core ≠ "/" && !(strEndsWith core "/")
    then core ++ "/" else core

/-- `path.posix.join` for the two-argument calls the source makes:
concatenate the non-empty parts with `/` and normalize. -/
def posixJoin (a b : String) : String :=
  if a = "" && b = "" then "."
  else if a = "" then posixNormalize b
  else if b = "" then posixNormalize a
  else posixNormalize (a ++ "/" ++ b)

/-- `path.posix.resolve` on an absolute argument: normalize and strip a
trailing separator (the resolved root stays `/`). -/
def posixResolveAbs (p : String) : String :=
  let n := posixNormalize p
  if n ≠ "/" && strEndsWith n "/" then String.mk n.data.dropLast else n

/-- `path.posix.resolve(workspace, p)`: `p` wins when absolute,
otherwise it is resolved against `workspace` (assumed absolute). -/
def posixResolveIn (workspace p : String) : String :=
  if strStartsWith p "/" then posixResolveAbs p
  else posixResolveAbs (workspace ++ "/" ++ p)

/-- Drop the common prefix of two segment lists and build the relative
steps: one `..` per remaining source segment, then the remaining target
segments. -/
def relSegs : List String → List String → List String
  | f :: fs, t :: ts =>
    if f = t then relSegs fs ts
    else List.replicate (fs.length + 1) ".." ++ (t :: ts)
  | [], ts => ts
  | fs, [] => List.replicate fs.length ".."

/-- `path.posix.relative` on absolute arguments: resolve both, drop the
common segment prefix, step up with `..` and descend into the target. -/
def posixRelative (fr target : String) : String :=
  let fs := normSegs true [] (splitSlash fr)
  let ts := normSegs true [] (splitSlash target)
  String.intercalate "/" (relSegs fs ts)

example : posixNormalize "/ws/../ws-evil" = "/ws-evil" := by decide
example : posixJoin "/ws" "sub" = "/ws/sub" := by decide
example : posixJoin "/ws" "../ws-evil" = "/ws-evil" := by decide
example : posixRelative "/ws" "/ws/sub/a.txt" = "sub/a.txt" := by decide
example : posixRelative "/ws" "/ws-evil/secret.txt" = "../ws-evil/secret.txt" := by decide
example : posixRelative "/ws" "/ws" = "" := by decide
example : posixResolveAbs "/ws/sub/" = "/ws/sub" := by decide

/-! ## JavaScript array sort and small string helpers -/

/-- Lexicographic comparison of character sequences, the default
comparator of JavaScript `Array.prototype.sort` on strings. -/
def charListLe : List Char → List Char → Bool
  | [], _ => true
  | _ :: _, [] => false
  | a :: as, b :: bs => if a = b then charListLe as bs else decide (a < b)

def strLe (a b : String) : Bool := charListLe a.data b.data

def insertSorted (x : String) : List String → List String
  | [] => [x]
  | y :: ys => if strLe x y then x :: y :: ys else y :: insertSorted x ys

/-- `results.sort()`: sort lexicographically by code point. -/
def jsSort : List String → List String
  | [] => []
  | x :: xs => insertSorted x (jsSort xs)

theorem mem_insertSorted {x a : String} :
    ∀ {l : List String}, a ∈ insertSorted x l ↔ a = x ∨ a ∈ l := by
  intro l
  induction l with
  | nil => simp [insertSorted]
  | cons y ys ih =>
    by_cases h : strLe x y
    · simp [insertSorted, h]
    · simp [insertSorted, h, ih]
      tauto

theorem mem_jsSort {a : String} :
    ∀ {l : List String}, a ∈ jsSort l ↔ a ∈ l := by
  intro l
  induction l with
  | nil => simp [jsSort]
  | cons x xs ih => simp [jsSort, mem_insertSorted, ih]

/-! ## The glob operation (glob.ts)

The result wrapper of types.ts (`{success, data?, error?}`): a call
either succeeds with data or fails with an error string; nothing is
ever thrown past the public boundary. -/

inductive OpResult (α : Type) where
  | ok (data : α)
  | err (error : String)
deriving Repr, DecidableEq

/-- What `fs.stat` reports for the base path: a regular file, a
directory, `ENOENT` (absent), or some other failure whose message the
outer catch turns into the error string. -/
inductive FsStat where
  | file
  | dir
  | absent
  | errorOther (msg : String)
deriving Repr, DecidableEq

/-- `searchPath ? path.join(workspace, searchPath) : workspace` — note
the JavaScript truthiness test: the empty string also selects the
workspace itself. -/
def globBasePath (workspace : String) (searchPath : Option String) : String :=
  match searchPath with
  | none => workspace
  | some sp => if sp = "" then workspace else posixJoin workspace sp

/-- `searchPath || "."`, used in the two stat error messages. -/
def spDisplay (searchPath : Option String) : String :=
  match searchPath with
  | none => "."
  | some sp => if sp = "" then "." else sp

/-- A file (given by its absolute path) lies under the directory
`dir`.  Models which files the recursive walk `collectFiles dir`
returns: the filesystem itself is represented as the list of the
absolute paths of all regular files, and the walk yields those below
its starting directory (unreadable subtrees are simply files missing
from the list). -/
def isUnder (dir file : String) : Bool := strStartsWith file (dir ++ "/")

/-- Lines 57-76 of glob.ts: collect all files under `basePath`, keep
those whose path relative to `basePath` (separators already `/` on
POSIX) matches the compiled pattern, convert the matches to paths
relative to the workspace root, and sort. -/
def globCollect (files : List String) (basePath workspace pattern : String) :
    List String :=
  let allFiles := files.filter (fun f => isUnder basePath f)
  let matched := allFiles.filter
    (fun f => globRegexTest pattern (posixRelative basePath f))
  jsSort (matched.map (fun f => posixRelative workspace f))

/-- The full glob operation: validate the pattern, run the
string-prefix workspace containment check on the normalized paths,
stat the base path, then collect.  Each failure is the verbatim error
string of the source. -/
def globOp (stat : String → FsStat) (files : List String)
    (workspace pattern : String) (searchPath : Option String) :
    OpResult (List String) :=
  if pattern = "" then .err "Pattern is required"
  else
    let basePath := globBasePath workspace searchPath
    let normalizedBasePath := posixNormalize basePath
    let normalizedWorkspace := posixNormalize workspace
    if !(strStartsWith normalizedBasePath normalizedWorkspace) then
      .err "Path traversal detected: path must be within workspace"
    else
      match stat basePath with
      | .absent => .err ("Directory not found: " ++ spDisplay searchPath)
      | .file => .err ("Not a directory: " ++ spDisplay searchPath)
      | .errorOther msg => .err msg
      | .dir => .ok (globCollect files basePath workspace pattern)

/-- Whether a resolved absolute path truly lies within the workspace
root (the sandbox boundary of the specification's glossary): it is the
root itself or sits below it. -/
def liesWithin (root p : String) : Bool :=
  p = root || strStartsWith p (root ++ "/")

example :
    globOp (fun p => if p = "/ws/sub" then .dir else .absent)
      ["/ws/sub/a.txt", "/ws/top.txt"] "/ws" "*" (some "sub") =
    .ok ["sub/a.txt"] := by decide

example :
    globOp (fun _ => .dir) [] "/ws" "" none = .err "Pattern is required" := by
  decide

/-! ## The grep operation (grep.ts)

Option bag of types.ts.  The flag fields are named `"-i"`, `"-n"`,
`"-B"`, `"-A"`, `"-C"` in the source; those are not valid Lean
identifiers, so they are `flagI` … `flagC` here. -/

structure GrepOptions where
  pattern : String
  path : Option String := none
  globFilter : Option String := none  -- `glob` in the source
  fileType : Option String := none    -- `type` in the source
  output_mode : Option String := none -- defaulted to "files_with_matches"
  flagI : Option Bool := none         -- "-i"
  flagN : Option Bool := none         -- "-n"
  flagB : Option Nat := none          -- "-B"
  flagA : Option Nat := none          -- "-A"
  flagC : Option Nat := none          -- "-C"
  head_limit : Option Nat := none
  multiline : Option Bool := none
deriving Repr, DecidableEq

/-- A match record (types.ts `GrepMatch`).  `line` and `content` are
mandatory fields; `column`, `beforeContext` and `afterContext` are
optional in the interface. -/
structure GrepMatch where
  line : Nat
  content : String
  column : Option Nat := none
  beforeContext : Option (List String) := none
  afterContext : Option (List String) := none
deriving Repr, DecidableEq

structure GrepContentResult where
  path : String
  «matches» : List GrepMatch
deriving Repr, DecidableEq

structure GrepCountResult where
  path : String
  count : Int
deriving Repr, DecidableEq

/-- The tagged union `GrepResult` of types.ts. -/
inductive GrepResult where
  | content (data : List GrepContentResult)
  | filesWithMatches (data : List String)
  | count (data : List GrepCountResult)
deriving Repr, DecidableEq

/-- One raw ripgrep `--json` line after `JSON.parse`, parsed at the
boundary into a tagged variant: `begin` carries `data.path.text`;
`match` carries `data.line_number`, `data.lines.text` and the start
offsets of `data.submatches`; `context` carries line number and text.
`invalid` stands for a line that fails `JSON.parse` (skipped by the
per-line catch) or has an unrecognized `type` (falls through the
if-chain); both leave the parser state unchanged. -/
inductive RgEvent where
  | beginEv (path : String)
  | matchEv (lineNumber : Nat) (text : String) (submatchStarts : List Nat)
  | contextEv (lineNumber : Nat) (text : String)
  | invalid
deriving Repr, DecidableEq

/-! ### executeRipgrep (grep.ts lines 146-186)

The spawn of the external binary is a collaborator; its observable
outcome is either an exit with a code, captured stdout (modelled as the
list of lines of `stdout.trim().split("\n")`) and captured stderr, or
a launch error (`ENOENT` when the binary is missing). -/

inductive SpawnOutcome where
  | exited (code : Int) (stdoutLines : List String) (stderr : String)
  | launchENOENT
  | launchOther (msg : String)
deriving Repr, DecidableEq

/-- Exit codes 0 (matches) and 1 (no matches) resolve with stdout; any
other exit code rejects with stderr, or a fallback message when stderr
is empty; a missing binary rejects with the dedicated message. -/
def executeRipgrep : SpawnOutcome → Except String (List String)
  | .exited code out stderr =>
      if code = 0 || code = 1 then .ok out
      else .error (if stderr ≠ "" then stderr
                   else "ripgrep exited with code " ++ toString code)
  | .launchENOENT => .error "ripgrep (rg) is not installed or not in PATH"
  | .launchOther msg => .error msg

/-! ### Count-mode parsing (grep.ts lines 235-260) -/

/-- Leading decimal digits of a character list; `none` when there is
not a single digit. -/
def parseDigits (cs : List Char) : Option Nat :=
  let ds := cs.takeWhile Char.isDigit
  if ds.isEmpty then none
  else some (ds.foldl (fun n c => 10 * n + (c.toNat - '0'.toNat)) 0)

/-- JavaScript `parseInt(s, 10)`: skip leading whitespace, accept an
optional sign, read leading digits (trailing garbage ignored), `none`
(NaN) when no digit is found. -/
def jsParseInt (s : String) : Option Int :=
  match s.data.dropWhile Char.isWhitespace with
  | '-' :: rest => (parseDigits rest).map (fun n => -(n : Int))
  | '+' :: rest => (parseDigits rest).map (fun n => (n : Int))
  | t => (parseDigits t).map (fun n => (n : Int))

example : jsParseInt "42" = some 42 := by decide
example : jsParseInt "-5" = some (-5) := by decide
example : jsParseInt "12abc" = some 12 := by decide
example : jsParseInt "abc" = none := by decide
example : jsParseInt "" = none := by decide

/-- Split a character list at its last `:`; `none` when there is no
colon (`lastIndexOf(':') === -1`). -/
def splitAtLastColon : List Char → Option (List Char × List Char)
  | [] => none
  | c :: rest =>
    match splitAtLastColon rest with
    | some (a, b) => some (c :: a, b)
    | none => if c = ':' then some ([], rest) else none

example : splitAtLastColon "a:b:3".data = some ("a:b".data, "3".data) := by
  decide

/-- One line of `--count` output: split on the last `:`, parse the
count with `parseInt`, convert the path to workspace-relative; `none`
models the loop's `continue`s. -/
def parseCountLine (workspace : String) (line : String) :
    Option GrepCountResult :=
  match splitAtLastColon line.data with
  | none => none
  | some (fp, cs) =>
    match jsParseInt (String.mk cs) with
    | none => none
    | some n =>
      some { path := posixRelative workspace
                       (posixResolveIn workspace (String.mk fp)),
             count := n }

def parseCountOutput (workspace : String) (lines : List String) :
    List GrepCountResult :=
  lines.filterMap (parseCountLine workspace)

/-! ### files_with_matches parsing (grep.ts lines 211-230) -/

/-- JavaScript `String.prototype.trim`. -/
def jsTrim (s : String) : String :=
  String.mk ((s.data.dropWhile Char.isWhitespace).reverse.dropWhile
    Char.isWhitespace).reverse

/-- Each non-blank line is a file path, converted to
workspace-relative. -/
def parseFilesWithMatches (workspace : String) (lines : List String) :
    List String :=
  lines.filterMap (fun line =>
    if jsTrim line ≠ "" then
      some (posixRelative workspace (posixResolveIn workspace line))
    else none)

/-! ### Content-mode parsing (grep.ts lines 265-337)

`fileMap` is a JavaScript `Map`, iterated in insertion order with
unique keys; it is embedded as an insertion-ordered association list.
`contextMap` likewise (its values are the `{before: [], after: []}`
records the source allocates and never reads). -/

def alookup {α : Type} : List (String × α) → String → Option α
  | [], _ => none
  | (k₀, v) :: rest, k => if k₀ = k then some v else alookup rest k

/-- `fileMap.has(k)`. -/
def ahas {α : Type} (m : List (String × α)) (k : String) : Bool :=
  (alookup m k).isSome

/-- `fileMap.get(k)!.push(v)`: append `v` to the entry of `k`. -/
def apush {α : Type} (v : α) : List (String × List α) → String →
    List (String × List α)
  | [], _ => []
  | (k₀, vs) :: rest, k =>
    if k₀ = k then (k₀, vs ++ [v]) :: rest else (k₀, vs) :: apush v rest k

/-- JavaScript `String.prototype.trimEnd`. -/
def jsTrimEnd (s : String) : String :=
  String.mk (s.data.reverse.dropWhile Char.isWhitespace).reverse

structure ContentState where
  fileMap : List (String × List GrepMatch)
  currentFile : Option String
  contextMap : List (String × (List String × List String))
deriving Repr, DecidableEq

/-- The initial state: empty maps, `currentFile = null`. -/
def initialContentState : ContentState :=
  { fileMap := [], currentFile := none, contextMap := [] }

/-- The column of a match: first submatch start (0-based) plus one, or
1 when there are no submatches. -/
def matchColumn (submatchStarts : List Nat) : Nat :=
  match submatchStarts with
  | s :: _ => s + 1
  | [] => 1

/-- The `GrepMatch` record built for a match event: 1-based line
number, content with trailing whitespace trimmed, and the column
unless the `"-n"` option is exactly `false` (`options["-n"] !==
false`).  The two context fields are never set. -/
def buildMatch (flagN : Option Bool) (lineNumber : Nat) (text : String)
    (submatchStarts : List Nat) : GrepMatch :=
  { line := lineNumber,
    content := jsTrimEnd text,
    column := if flagN ≠ some false then some (matchColumn submatchStarts)
              else none,
    beforeContext := none,
    afterContext := none }

/-- One iteration of the parse loop.  `begin` records the
workspace-relative path as current and inserts an empty group unless
one exists; `match`/`context` require a truthy `currentFile` (so a
`null` or empty-string current file drops them); a match event whose
file is missing from the map would make `fileMap.get(...)!.push`
throw, which the per-line catch swallows — state unchanged; context
events only touch `contextMap`. -/
def contentStep (workspace : String) (opts : GrepOptions)
    (st : ContentState) : RgEvent → ContentState
  | .beginEv p =>
    let rel := posixRelative workspace p
    { fileMap := if ahas st.fileMap rel then st.fileMap
                 else st.fileMap ++ [(rel, [])],
      currentFile := some rel,
      contextMap := st.contextMap }
  | .matchEv lineNumber text submatchStarts =>
    match st.currentFile with
    | none => st
    | some f =>
      if f = "" then st
      else if ahas st.fileMap f then
        { st with fileMap := (apush
            (buildMatch opts.flagN lineNumber text submatchStarts)
            st.fileMap f) }
      else st
  | .contextEv _ _ =>
    match st.currentFile with
    | none => st
    | some f =>
      if f = "" then st
      else
        { st with contextMap :=
            if ahas st.contextMap f then st.contextMap
            else st.contextMap ++ [(f, ([], []))] }
  | .invalid => st

/-- The whole content-mode parse: fold the event stream, then keep the
per-file groups that accumulated at least one match, in map insertion
order. -/
def parseContentOutput (workspace : String) (opts : GrepOptions)
    (events : List RgEvent) : List GrepContentResult :=
  let st := events.foldl (contentStep workspace opts) initialContentState
  (st.fileMap.filter (fun e => decide (0 < e.2.length))).map
    (fun e => { path := e.1, «matches» := e.2 })

/-! ### Dispatch and the grep operation (grep.ts lines 18-81, 191-206) -/

/-- `parseRipgrepOutput`: drop blank stdout lines and parse according
to the output mode ("files_with_matches" / "count" / content
otherwise).  `decode` is the `JSON.parse`-plus-tagging boundary that
turns one raw line into an `RgEvent`. -/
def parseRipgrepOutput (decode : String → RgEvent) (out : List String)
    (outputMode workspace : String) (opts : GrepOptions) : GrepResult :=
  let lines := out.filter (fun l => decide (0 < l.length))
  if outputMode = "files_with_matches" then
    .filesWithMatches (parseFilesWithMatches workspace lines)
  else if outputMode = "count" then
    .count (parseCountOutput workspace lines)
  else
    .content (parseContentOutput workspace opts (lines.map decode))

/-- The grep operation.  `regexCheck` models `new RegExp(pattern)`:
`none` when the pattern compiles, `some detail` with the thrown
message otherwise.  `spawn` is the outcome of the ripgrep invocation.
Validation order is the source's: empty pattern, regex validity,
workspace containment of the resolved search path (string-prefix
check on resolved paths), then execution and parsing. -/
def grepSearchPath (workspace : String) (path : Option String) : String :=
  match path with
  | none => workspace
  | some p => if p = "" then workspace else posixJoin workspace p

def grepOp (regexCheck : String → Option String)
    (decode : String → RgEvent) (spawn : SpawnOutcome)
    (workspace : String) (options : GrepOptions) : OpResult GrepResult :=
  let pattern := options.pattern
  let output_mode := options.output_mode.getD "files_with_matches"
  if pattern = "" then .err "pattern is required"
  else
    match regexCheck pattern with
    | some detail => .err ("Invalid regex pattern: " ++ detail)
    | none =>
      let searchPath := grepSearchPath workspace options.path
      let resolvedSearchPath := posixResolveAbs searchPath
      let resolvedWorkspace := posixResolveAbs workspace
      if !(strStartsWith resolvedSearchPath resolvedWorkspace) then
        .err "Search path must be within workspace"
      else
        match executeRipgrep spawn with
        | .error e => .err e
        | .ok out =>
          .ok (parseRipgrepOutput decode out output_mode workspace options)

/-! ## Helper lemmas: the compiled matchers for `*` and `**/*` -/

theorem starLoop_noslash : ∀ {s : List Char},
    starLoop (fun c => decide (c ≠ '/')) List.isEmpty s = true → '/' ∉ s := by
  intro s
  induction s with
  | nil => intro _; simp
  | cons c cs ih =>
    intro h
    simp only [starLoop, List.isEmpty_cons, Bool.false_or, Bool.and_eq_true,
      decide_eq_true_eq] at h
    simp only [List.mem_cons, not_or]
    exact ⟨fun hc => h.1 hc.symm, ih h.2⟩

theorem starLoop_all_noslash : ∀ {s : List Char}, '/' ∉ s →
    starLoop (fun c => decide (c ≠ '/')) List.isEmpty s = true := by
  intro s
  induction s with
  | nil => intro _; rfl
  | cons c cs ih =>
    intro h
    simp only [List.mem_cons, not_or] at h
    simp only [starLoop, List.isEmpty_cons, Bool.false_or, Bool.and_eq_true,
      decide_eq_true_eq]
    exact ⟨fun hc => h.1 hc.symm, ih h.2⟩

theorem exists_last_slash : ∀ {s : List Char}, '/' ∈ s →
    ∃ u v, s = u ++ '/' :: v ∧ '/' ∉ v := by
  intro s
  induction s with
  | nil => intro h; cases h
  | cons c cs ih =>
    intro h
    by_cases hcs : '/' ∈ cs
    · obtain ⟨u, v, huv, hv⟩ := ih hcs
      exact ⟨c :: u, v, by rw [huv, List.cons_append], hv⟩
    · have hc : c = '/' := by
        rcases List.mem_cons.mp h with h1 | h1
        · exact h1.symm
        · exact absurd h1 hcs
      exact ⟨[], cs, by rw [hc, List.nil_append], hcs⟩

theorem slashTail_complete {p : Char → Bool} {k : List Char → Bool} :
    ∀ {u v : List Char}, (∀ c ∈ u, p c = true) → k v = true →
      slashTail p k (u ++ '/' :: v) = true := by
  intro u
  induction u with
  | nil =>
    intro v _ hk
    simp [slashTail, hk]
  | cons c cs ih =>
    intro v hu hk
    simp only [List.cons_append, slashTail, Bool.or_eq_true, Bool.and_eq_true]
    right
    exact ⟨hu c (List.mem_cons_self c cs),
      ih (fun x hx => hu x (List.mem_cons_of_mem c hx)) hk⟩

/-- `**/*` matches every path that is free of line terminators. -/
theorem regexAccept_dstarSlash_star {s : List Char}
    (hd : ∀ c ∈ s, jsDot c = true) :
    regexAccept [GlobTok.dstarSlash, GlobTok.star] s = true := by
  simp only [regexAccept, Bool.or_eq_true]
  by_cases h : '/' ∈ s
  · obtain ⟨u, v, huv, hv⟩ := exists_last_slash h
    right
    rw [huv]
    exact slashTail_complete
      (fun c hc => hd c (huv ▸ List.mem_append_left _ hc))
      (starLoop_all_noslash hv)
  · left
    exact starLoop_all_noslash h

/-! ## Helper lemmas: association lists (JavaScript `Map`) -/

theorem alookup_eq_none {α : Type} :
    ∀ {m : List (String × α)} {k : String},
      alookup m k = none ↔ k ∉ m.map Prod.fst := by
  intro m k
  induction m with
  | nil => simp [alookup]
  | cons e rest ih =>
    obtain ⟨k₀, v⟩ := e
    by_cases h : k₀ = k
    · simp [alookup, h]
    · simp only [alookup, h, if_false, List.map_cons, List.mem_cons, not_or, ih]
      constructor
      · exact fun hk => ⟨fun he => h he.symm, hk⟩
      · exact fun hk => hk.2

theorem apush_keys {α : Type} (v : α) :
    ∀ (m : List (String × List α)) (k : String),
      (apush v m k).map Prod.fst = m.map Prod.fst := by
  intro m k
  induction m with
  | nil => rfl
  | cons e rest ih =>
    obtain ⟨k₀, vs⟩ := e
    by_cases h : k₀ = k <;> simp [apush, h, ih]

theorem alookup_apush_self {α : Type} {v : α} :
    ∀ {m : List (String × List α)} {k : String} {vs : List α},
      alookup m k = some vs → alookup (apush v m k) k = some (vs ++ [v]) := by
  intro m
  induction m with
  | nil => intro k vs h; simp [alookup] at h
  | cons e rest ih =>
    intro k vs h
    obtain ⟨k₀, vs₀⟩ := e
    by_cases hk : k₀ = k
    · subst hk
      simp only [alookup, if_pos, Option.some.injEq] at h
      simp [apush, alookup, h]
    · simp only [alookup, hk, if_false] at h
      simp [apush, hk, alookup, ih h]

theorem alookup_apush_ne {α : Type} {v : α} :
    ∀ (m : List (String × List α)) (k g : String), g ≠ k →
      alookup (apush v m k) g = alookup m g := by
  intro m
  induction m with
  | nil => intro k g _; rfl
  | cons e rest ih =>
    intro k g hg
    obtain ⟨k₀, vs₀⟩ := e
    by_cases hk : k₀ = k
    · subst hk
      have : ¬ (k₀ = g) := fun he => hg he.symm
      simp [apush, alookup, this]
    · by_cases hg₀ : k₀ = g
      · simp [apush, hk, alookup, hg₀, hg]
      · simp [apush, hk, alookup, hg₀, ih _ _ hg]

theorem mem_apush {α : Type} {v : α} :
    ∀ {m : List (String × List α)} {k : String} {e : String × List α},
      e ∈ apush v m k →
        e ∈ m ∨ ∃ e₀, e₀ ∈ m ∧ e = (e₀.1, e₀.2 ++ [v]) := by
  intro m
  induction m with
  | nil => intro k e h; simp [apush] at h
  | cons e₁ rest ih =>
    intro k e h
    obtain ⟨k₀, vs₀⟩ := e₁
    by_cases hk : k₀ = k
    · subst hk
      simp only [apush, if_pos, List.mem_cons] at h
      rcases h with h | h
      · exact Or.inr ⟨(k₀, vs₀), List.mem_cons_self _ _, h⟩
      · exact Or.inl (List.mem_cons_of_mem _ h)
    · rw [apush, if_neg hk] at h
      rcases List.mem_cons.mp h with h | h
      · exact Or.inl (h ▸ List.mem_cons_self _ _)
      · rcases ih h with h₂ | ⟨e₀, he₀, hee⟩
        · exact Or.inl (List.mem_cons_of_mem _ h₂)
        · exact Or.inr ⟨e₀, List.mem_cons_of_mem _ he₀, hee⟩

/-! ## Helper lemmas: invariants of the content-mode fold -/

/-- Every match record accumulated in the file map satisfies `P`. -/
def MatchPred (P : GrepMatch → Prop) (st : ContentState) : Prop :=
  ∀ e ∈ st.fileMap, ∀ m ∈ e.2, P m

/-- A context event touches only `contextMap`: the file map and the
current file are unchanged. -/
theorem contentStep_contextEv_keeps (ws : String) (opts : GrepOptions)
    (st : ContentState) (ln : Nat) (txt : String) :
    (contentStep ws opts st (.contextEv ln txt)).fileMap = st.fileMap ∧
    (contentStep ws opts st (.contextEv ln txt)).currentFile =
      st.currentFile := by
  obtain ⟨fm, cf, cm⟩ := st
  cases cf with
  | none => exact ⟨rfl, rfl⟩
  | some f =>
    by_cases hf : f = "" <;> simp [contentStep, hf]

theorem contentStep_matchPred {P : GrepMatch → Prop} {ws : String}
    {opts : GrepOptions}
    (hbuild : ∀ ln txt subs, P (buildMatch opts.flagN ln txt subs)) :
    ∀ (st : ContentState) (ev : RgEvent), MatchPred P st →
      MatchPred P (contentStep ws opts st ev) := by
  intro st ev h
  cases ev with
  | beginEv p =>
    intro e he m hm
    simp only [contentStep] at he
    by_cases hh : ahas st.fileMap (posixRelative ws p)
    · rw [if_pos hh] at he
      exact h e he m hm
    · rw [if_neg hh] at he
      rcases List.mem_append.mp he with he | he
      · exact h e he m hm
      · obtain rfl : e = (posixRelative ws p, []) := List.mem_singleton.mp he
        cases hm
  | matchEv ln txt subs =>
    cases hc : st.currentFile with
    | none => simpa [contentStep, hc] using h
    | some f =>
      by_cases hf : f = ""
      · simpa [contentStep, hc, hf] using h
      · by_cases hh : ahas st.fileMap f
        · intro e he m hm
          simp only [contentStep, hc, hf, if_neg, hh, if_pos] at he
          rcases mem_apush he with he | ⟨e₀, he₀, rfl⟩
          · exact h e he m hm
          · rcases List.mem_append.mp hm with hm | hm
            · exact h e₀ he₀ m hm
            · obtain rfl : m = buildMatch opts.flagN ln txt subs :=
                List.mem_singleton.mp hm
              exact hbuild ln txt subs
        · simpa [contentStep, hc, hf, hh] using h
  | contextEv ln txt =>
    intro e he m hm
    rw [(contentStep_contextEv_keeps ws opts st ln txt).1] at he
    exact h e he m hm
  | invalid => exact h

theorem foldl_matchPred {P : GrepMatch → Prop} {ws : String}
    {opts : GrepOptions}
    (hbuild : ∀ ln txt subs, P (buildMatch opts.flagN ln txt subs)) :
    ∀ (events : List RgEvent) (st : ContentState), MatchPred P st →
      MatchPred P (events.foldl (contentStep ws opts) st) := by
  intro events
  induction events with
  | nil => intro st h; exact h
  | cons ev rest ih =>
    intro st h
    exact ih _ (contentStep_matchPred hbuild st ev h)

/-- Every match record of the final result satisfies any property the
builder guarantees. -/
theorem parseContentOutput_matchPred {P : GrepMatch → Prop} {ws : String}
    {opts : GrepOptions}
    (hbuild : ∀ ln txt subs, P (buildMatch opts.flagN ln txt subs)) :
    ∀ (events : List RgEvent), ∀ r ∈ parseContentOutput ws opts events,
      ∀ m ∈ r.«matches», P m := by
  intro events r hr m hm
  have hst := @foldl_matchPred P ws opts hbuild events initialContentState
    (by intro e he m hm; simp [initialContentState] at he)
  simp only [parseContentOutput, List.mem_map] at hr
  obtain ⟨e, he, rfl⟩ := hr
  exact hst e (List.mem_filter.mp he).1 m hm

/-- The file-map keys stay duplicate-free through the fold. -/
theorem contentStep_keys_nodup {ws : String} {opts : GrepOptions} :
    ∀ (st : ContentState) (ev : RgEvent),
      (st.fileMap.map Prod.fst).Nodup →
      ((contentStep ws opts st ev).fileMap.map Prod.fst).Nodup := by
  intro st ev h
  cases ev with
  | beginEv p =>
    simp only [contentStep]
    by_cases hh : ahas st.fileMap (posixRelative ws p)
    · rwa [if_pos hh]
    · rw [if_neg hh]
      have hno : alookup st.fileMap (posixRelative ws p) = none := by
        rcases ho : alookup st.fileMap (posixRelative ws p) with _ | v
        · rfl
        · exact absurd (by simp [ahas, ho]) hh
      have hni := alookup_eq_none.mp hno
      simp only [List.map_append, List.map_cons, List.map_nil]
      exact List.Nodup.append h (List.nodup_singleton _)
        (fun a ha hb => hni (List.mem_singleton.mp hb ▸ ha))
  | matchEv ln txt subs =>
    cases hc : st.currentFile with
    | none => simpa [contentStep, hc] using h
    | some f =>
      by_cases hf : f = ""
      · simpa [contentStep, hc, hf] using h
      · by_cases hh : ahas st.fileMap f
        · simpa [contentStep, hc, hf, hh, apush_keys] using h
        · simpa [contentStep, hc, hf, hh] using h
  | contextEv ln txt =>
    rwa [(contentStep_contextEv_keeps ws opts st ln txt).1]
  | invalid => exact h

theorem foldl_keys_nodup {ws : String} {opts : GrepOptions} :
    ∀ (events : List RgEvent) (st : ContentState),
      (st.fileMap.map Prod.fst).Nodup →
      (((events.foldl (contentStep ws opts) st).fileMap.map Prod.fst)).Nodup := by
  intro events
  induction events with
  | nil => intro st h; exact h
  | cons ev rest ih =>
    intro st h
    exact ih _ (contentStep_keys_nodup st ev h)

/-! ## Helper lemmas: context events never reach the result -/

def isContextEv : RgEvent → Bool
  | .contextEv _ _ => true
  | _ => false

/-- The file map and current file after a step are determined by the
file map and current file before it (the context map never feeds
back). -/
theorem contentStep_congr (ws : String) (opts : GrepOptions)
    (st st' : ContentState) (hf : st.fileMap = st'.fileMap)
    (hc : st.currentFile = st'.currentFile) (ev : RgEvent) :
    (contentStep ws opts st ev).fileMap =
      (contentStep ws opts st' ev).fileMap ∧
    (contentStep ws opts st ev).currentFile =
      (contentStep ws opts st' ev).currentFile := by
  obtain ⟨fm, cf, cm⟩ := st
  obtain ⟨fm', cf', cm'⟩ := st'
  simp only at hf hc
  subst hf
  subst hc
  cases ev with
  | beginEv p => exact ⟨rfl, rfl⟩
  | matchEv ln txt subs =>
    cases cf with
    | none => exact ⟨rfl, rfl⟩
    | some f =>
      by_cases hf0 : f = ""
      · simp [contentStep, hf0]
      · by_cases hh : ahas fm f <;> simp [contentStep, hf0, hh]
  | contextEv ln txt =>
    refine ⟨?_, ?_⟩
    · rw [(contentStep_contextEv_keeps ws opts ⟨fm, cf, cm⟩ ln txt).1,
        (contentStep_contextEv_keeps ws opts ⟨fm, cf, cm'⟩ ln txt).1]
    · rw [(contentStep_contextEv_keeps ws opts ⟨fm, cf, cm⟩ ln txt).2,
        (contentStep_contextEv_keeps ws opts ⟨fm, cf, cm'⟩ ln txt).2]
  | invalid => exact ⟨rfl, rfl⟩

/-- Folding the stream with all context events removed produces the
same file map and current file as folding the full stream. -/
theorem foldl_filter_context (ws : String) (opts : GrepOptions) :
    ∀ (events : List RgEvent) (st st' : ContentState),
      st.fileMap = st'.fileMap → st.currentFile = st'.currentFile →
      (((events.filter (fun e => !isContextEv e)).foldl
          (contentStep ws opts) st).fileMap =
        ((events.foldl (contentStep ws opts) st')).fileMap) ∧
      (((events.filter (fun e => !isContextEv e)).foldl
          (contentStep ws opts) st).currentFile =
        ((events.foldl (contentStep ws opts) st')).currentFile) := by
  intro events
  induction events with
  | nil => intro st st' hf hc; exact ⟨hf, hc⟩
  | cons ev rest ih =>
    intro st st' hf hc
    cases ev with
    | contextEv ln txt =>
      simp only [List.filter_cons, isContextEv, Bool.not_true, if_neg,
        Bool.false_eq_true, not_false_eq_true, List.foldl_cons]
      exact ih st (contentStep ws opts st' (.contextEv ln txt))
        (by rw [hf, (contentStep_contextEv_keeps ws opts st' ln txt).1])
        (by rw [hc, (contentStep_contextEv_keeps ws opts st' ln txt).2])
    | beginEv p =>
      simp only [List.filter_cons, isContextEv, Bool.not_false, if_pos,
        List.foldl_cons]
      obtain ⟨h1, h2⟩ := contentStep_congr ws opts st st' hf hc (.beginEv p)
      exact ih _ _ h1 h2
    | matchEv ln txt subs =>
      simp only [List.filter_cons, isContextEv, Bool.not_false, if_pos,
        List.foldl_cons]
      obtain ⟨h1, h2⟩ :=
        contentStep_congr ws opts st st' hf hc (.matchEv ln txt subs)
      exact ih _ _ h1 h2
    | invalid =>
      simp only [List.filter_cons, isContextEv, Bool.not_false, if_pos,
        List.foldl_cons]
      obtain ⟨h1, h2⟩ := contentStep_congr ws opts st st' hf hc .invalid
      exact ih _ _ h1 h2

/-! ## Helper lemmas: the `"-n"` flag only controls the column field -/

/-- Drop the column of a match record. -/
def eraseColM (m : GrepMatch) : GrepMatch := { m with column := none }

/-- Drop every column of a per-file group. -/
def eraseColR (r : GrepContentResult) : GrepContentResult :=
  { r with «matches» := r.«matches».map eraseColM }

/-- Drop every column accumulated in a parser state. -/
def eraseColState (st : ContentState) : ContentState :=
  { st with fileMap := st.fileMap.map (fun e => (e.1, e.2.map eraseColM)) }

theorem alookup_map_values {α β : Type} (f : α → β) :
    ∀ (m : List (String × α)) (k : String),
      alookup (m.map (fun e => (e.1, f e.2))) k = (alookup m k).map f := by
  intro m k
  induction m with
  | nil => rfl
  | cons e rest ih =>
    obtain ⟨k₀, v⟩ := e
    by_cases h : k₀ = k <;> simp [alookup, h, ih]

theorem apush_map_values {α : Type} (g : α → α) (v : α) :
    ∀ (m : List (String × List α)) (k : String),
      (apush v m k).map (fun e => (e.1, e.2.map g)) =
        apush (g v) (m.map (fun e => (e.1, e.2.map g))) k := by
  intro m k
  induction m with
  | nil => rfl
  | cons e rest ih =>
    obtain ⟨k₀, vs⟩ := e
    by_cases h : k₀ = k <;> simp [apush, h, ih]

theorem eraseColM_buildMatch (flagN : Option Bool) (ln : Nat) (txt : String)
    (subs : List Nat) :
    eraseColM (buildMatch flagN ln txt subs) =
      buildMatch (some false) ln txt subs := by
  simp [eraseColM, buildMatch]

/-- One step with `"-n" := false` on the column-erased state equals
erasing the columns after a step with the original options. -/
theorem contentStep_eraseCol (ws : String) (opts : GrepOptions)
    (st : ContentState) (ev : RgEvent) :
    contentStep ws { opts with flagN := some false } (eraseColState st) ev =
      eraseColState (contentStep ws opts st ev) := by
  obtain ⟨fm, cf, cm⟩ := st
  cases ev with
  | beginEv p =>
    have hk : ahas (fm.map (fun e => (e.1, e.2.map eraseColM)))
        (posixRelative ws p) = ahas fm (posixRelative ws p) := by
      simp [ahas, alookup_map_values]
    by_cases hh : ahas fm (posixRelative ws p) <;>
      simp [contentStep, eraseColState, hk, hh]
  | matchEv ln txt subs =>
    cases cf with
    | none => simp [contentStep, eraseColState]
    | some f =>
      by_cases hf0 : f = ""
      · simp [contentStep, eraseColState, hf0]
      · have hk : ahas (fm.map (fun e => (e.1, e.2.map eraseColM))) f =
            ahas fm f := by
          simp [ahas, alookup_map_values]
        by_cases hh : ahas fm f
        · simp only [contentStep, eraseColState, hf0, if_neg, hk, hh,
            if_pos, not_false_eq_true]
          simp [apush_map_values, eraseColM_buildMatch]
        · simp [contentStep, eraseColState, hf0, hk, hh]
  | contextEv ln txt =>
    cases cf with
    | none => simp [contentStep, eraseColState]
    | some f =>
      by_cases hf0 : f = "" <;> simp [contentStep, eraseColState, hf0]
  | invalid => simp [contentStep, eraseColState]

theorem foldl_eraseCol (ws : String) (opts : GrepOptions) :
    ∀ (events : List RgEvent) (st : ContentState),
      events.foldl (contentStep ws { opts with flagN := some false })
          (eraseColState st) =
        eraseColState (events.foldl (contentStep ws opts) st) := by
  intro events
  induction events with
  | nil => intro st; rfl
  | cons ev rest ih =>
    intro st
    simp only [List.foldl_cons, contentStep_eraseCol, ih]

/-- Building the per-file groups from a column-erased file map gives
the column-erased groups (the non-empty filter is unaffected because
erasing preserves lengths). -/
theorem filterMk_map_erase :
    ∀ m : List (String × List GrepMatch),
      ((m.map (fun e => (e.1, e.2.map eraseColM))).filter
          (fun e => decide (0 < e.2.length))).map
        (fun e => ({ path := e.1, «matches» := e.2 } : GrepContentResult)) =
      ((m.filter (fun e => decide (0 < e.2.length))).map
          (fun e => ({ path := e.1, «matches» := e.2 } :
            GrepContentResult))).map eraseColR := by
  intro m
  induction m with
  | nil => rfl
  | cons e rest ih =>
    obtain ⟨k, vs⟩ := e
    by_cases h : 0 < vs.length
    · simp [List.filter_cons, h, ih, eraseColR]
    · simp [List.filter_cons, h, ih]

/-! ## Helper lemmas: count-mode parsing -/

theorem strMk_data (s : String) : String.mk s.data = s := rfl

theorem splitAtLastColon_no_colon :
    ∀ {v : List Char}, ':' ∉ v → splitAtLastColon v = none := by
  intro v
  induction v with
  | nil => intro _; rfl
  | cons c cs ih =>
    intro h
    simp only [List.mem_cons, not_or] at h
    rw [splitAtLastColon, ih h.2, if_neg (fun hc => h.1 hc.symm)]

theorem splitAtLastColon_append :
    ∀ {u v : List Char}, ':' ∉ v →
      splitAtLastColon (u ++ ':' :: v) = some (u, v) := by
  intro u
  induction u with
  | nil =>
    intro v hv
    rw [List.nil_append, splitAtLastColon, splitAtLastColon_no_colon hv,
      if_pos rfl]
  | cons c cs ih =>
    intro v hv
    rw [List.cons_append, splitAtLastColon, ih hv]

/-- The integer a count line carries, if any: the text after the last
colon run through `parseInt`. -/
def countOfLine (line : String) : Option Int :=
  match splitAtLastColon line.data with
  | none => none
  | some (_, cs) => jsParseInt (String.mk cs)

theorem parseCountLine_count {ws l : String} {e : GrepCountResult} :
    parseCountLine ws l = some e → countOfLine l = some e.count := by
  intro h
  rw [parseCountLine] at h
  rw [countOfLine]
  cases hs : splitAtLastColon l.data with
  | none => simp [hs] at h
  | some pr =>
    obtain ⟨fp, cs⟩ := pr
    simp only [hs] at h ⊢
    cases hj : jsParseInt (String.mk cs) with
    | none => simp [hj] at h
    | some n =>
      simp only [hj] at h
      cases h
      rfl

/-! # Claims -/

/-- C1 (counterexample): the grammar as stated generates the
one-character path `"\n"` for the pattern `**` (`**` matches any
characters including `/`), but the matcher compiled by `globToRegex`
rejects it: the fragment `.*` emitted for `**` does not match a line
terminator in a JavaScript regular expression. -/
theorem c1_glob_grammar_counterexample :
    claimAccept (globToRegexToks "**".data) "\n".data = true ∧
    regexAccept (globToRegexToks "**".data) "\n".data = false :=
  ⟨by decide, by decide⟩

/-- C1 (amended): the glob compiler produces a matcher that accepts
exactly the relative paths generated by the specified grammar, amended
in one point: `**` matches any run of characters including `/` but
excluding line terminators, and the path segments consumed by `**/`
likewise contain no line terminators.  `*` (any run excluding `/`),
`?` (exactly one character excluding `/`), literal treatment of every
other character including brackets and braces, and anchoring at both
ends are exactly as specified. -/
theorem c1_glob_grammar_amended (pattern path : String) :
    globRegexTest pattern path =
      amendedAccept (globToRegexToks pattern.data) path.data := by
  rw [globRegexTest, amendedAccept_eq_regexAccept]

/-- C2: the workspace-containment check of both operations is a
string-prefix test with no separator guard, so a sibling directory
whose name extends the workspace root's name escapes it.  With
workspace `/ws` and search path `../ws-evil` (resolving to
`/ws-evil`, outside the root): the normalized base passes glob's
check, the glob call succeeds and returns a path outside the root
instead of the path-traversal error, and grep's resolved-path check
passes as well, so the grep call also succeeds. -/
theorem c2_path_traversal_check_bug :
    (posixNormalize (globBasePath "/ws" (some "../ws-evil")) = "/ws-evil" ∧
      liesWithin "/ws" "/ws-evil" = false) ∧
    globOp (fun p => if p = "/ws-evil" then .dir else .absent)
        ["/ws-evil/secret.txt"] "/ws" "*" (some "../ws-evil") =
      .ok ["../ws-evil/secret.txt"] ∧
    liesWithin "/ws" (posixResolveIn "/ws" "../ws-evil/secret.txt") = false ∧
    grepOp (fun _ => none) (fun _ => .invalid) (.exited 0 [] "")
        "/ws" { pattern := "x", path := some "../ws-evil" } =
      .ok (.filesWithMatches []) :=
  ⟨⟨by decide, by decide⟩, by decide, by decide, by decide⟩

/-- C4 (counterexample): on the raw line `a.txt:0` the count parser
returns an entry with `count = 0`, contradicting the claim that the
returned mapping never contains a zero count for any raw line
stream. -/
theorem c4_count_zero_counterexample :
    parseCountOutput "/ws" ["a.txt:0"] =
      [{ path := "a.txt", count := 0 }] := by
  decide

/-- C4 (amended): each raw line is split on its last `:` into a path
and a count field, and the count field is parsed with JavaScript
`parseInt` — so an optional sign and leading digits are read and the
value can be zero or negative when the stream carries such a line;
lines with no colon or no parsable integer are skipped without failing
the call; and whenever no raw line parses to the integer 0 (as with a
backend that never reports zero-match files) no returned entry has
`count = 0`. -/
theorem c4_count_parse_amended (ws pre suf : String) (lines : List String)
    (hsuf : ':' ∉ suf.data) :
    parseCountLine ws (pre ++ ":" ++ suf) =
      (jsParseInt suf).map (fun n =>
        { path := posixRelative ws (posixResolveIn ws pre), count := n }) ∧
    ((∀ l ∈ lines, countOfLine l ≠ some 0) →
      ∀ e ∈ parseCountOutput ws lines, e.count ≠ 0) := by
  constructor
  · have hd : (pre ++ ":" ++ suf).data = pre.data ++ ':' :: suf.data := by
      simp [String.data_append]
    rw [parseCountLine, hd, splitAtLastColon_append hsuf]
    cases hj : jsParseInt suf with
    | none => simp [strMk_data, hj]
    | some n => simp [strMk_data, hj]
  · intro hz e he h0
    simp only [parseCountOutput, List.mem_filterMap] at he
    obtain ⟨l, hl, hpl⟩ := he
    exact hz l hl (by rw [parseCountLine_count hpl, h0])

/-- C4 (witness): on the raw line `a.txt:3` the amended theorem rules
out a zero-count entry. -/
theorem c4_count_parse_witness :
    ({ path := "a.txt", count := 0 } : GrepCountResult) ∉
      parseCountOutput "/ws" ["a.txt:3"] := by
  intro hmem
  exact (c4_count_parse_amended "/ws" "a.txt" "3" ["a.txt:3"]
    (by decide)).2 (by decide) _ hmem rfl

/-- C7: exit codes 0 and 1 of the search backend both resolve
successfully with the captured stdout; any exit code of 2 or more
rejects with an error; a launch failure because the binary is missing
rejects with the distinguishable `not installed` message; and any
rejection surfaces as a call-level error of the grep operation, never
as a success pretending no matches. -/
theorem c7_exit_codes (code : Int) (out : List String) (stderr : String)
    (rc : String → Option String) (dec : String → RgEvent)
    (spawn : SpawnOutcome) (ws : String) (opts : GrepOptions) :
    ((code = 0 ∨ code = 1) →
      executeRipgrep (.exited code out stderr) = .ok out) ∧
    (2 ≤ code →
      ∃ msg, executeRipgrep (.exited code out stderr) = .error msg) ∧
    executeRipgrep .launchENOENT =
      .error "ripgrep (rg) is not installed or not in PATH" ∧
    (∀ e, executeRipgrep spawn = .error e →
      opts.pattern ≠ "" → rc opts.pattern = none →
      strStartsWith (posixResolveAbs (grepSearchPath ws opts.path))
        (posixResolveAbs ws) = true →
      grepOp rc dec spawn ws opts = .err e) := by
  refine ⟨?_, ?_, rfl, ?_⟩
  · intro hc
    rcases hc with rfl | rfl <;> simp [executeRipgrep]
  · intro hc
    refine ⟨if stderr ≠ "" then stderr
            else "ripgrep exited with code " ++ toString code, ?_⟩
    simp [executeRipgrep, show ¬code = 0 by omega, show ¬code = 1 by omega]
  · intro e he hp hrc hsw
    simp [grepOp, hp, hrc, hsw, he]

/-- C7 (witness): exit code 2 with stderr `boom` surfaces as the
call-level error `boom`. -/
theorem c7_exit_codes_witness :
    grepOp (fun _ => none) (fun _ => .invalid) (.exited 2 [] "boom")
      "/ws" { pattern := "x" } = .err "boom" :=
  (c7_exit_codes 2 [] "boom" (fun _ => none) (fun _ => .invalid)
      (.exited 2 [] "boom") "/ws" { pattern := "x" }).2.2.2 "boom"
    (by simp [executeRipgrep]) (by decide) (by decide) (by decide)

/-- C3: in content mode, a match event arriving for the current,
already-begun file appends to that file's group — and only to it —
one record whose `line` is the event's 1-based line number, whose
`content` is the event's line text with trailing whitespace trimmed,
and whose `column` is the first submatch's 0-based start offset plus
1, included unless line numbers were explicitly suppressed
(`"-n" = false`); and a file group that accumulated zero matches never
appears in the returned result. -/
theorem c3_content_match_fields (ws : String) (opts : GrepOptions)
    (st : ContentState) (f : String) (ms : List GrepMatch) (ln : Nat)
    (txt : String) (s₀ : Nat) (subs : List Nat)
    (hcf : st.currentFile = some f) (hf : f ≠ "")
    (hms : alookup st.fileMap f = some ms) :
    (alookup (contentStep ws opts st (.matchEv ln txt (s₀ :: subs))).fileMap f
      = some (ms ++ [({ line := ln, content := jsTrimEnd txt,
                        column := if opts.flagN ≠ some false
                                  then some (s₀ + 1) else none,
                        beforeContext := none,
                        afterContext := none } : GrepMatch)])) ∧
    (∀ g, g ≠ f →
      alookup (contentStep ws opts st (.matchEv ln txt (s₀ :: subs))).fileMap g
        = alookup st.fileMap g) ∧
    (∀ events, ∀ r ∈ parseContentOutput ws opts events, r.«matches» ≠ []) := by
  have hh : ahas st.fileMap f = true := by simp [ahas, hms]
  have hstep : (contentStep ws opts st (.matchEv ln txt (s₀ :: subs))).fileMap
      = apush (buildMatch opts.flagN ln txt (s₀ :: subs)) st.fileMap f := by
    simp [contentStep, hcf, hf, hh]
  have hbm : buildMatch opts.flagN ln txt (s₀ :: subs) =
      ({ line := ln, content := jsTrimEnd txt,
         column := if opts.flagN ≠ some false then some (s₀ + 1) else none,
         beforeContext := none, afterContext := none } : GrepMatch) := by
    simp [buildMatch, matchColumn]
  refine ⟨?_, ?_, ?_⟩
  · rw [hstep, ← hbm]
    exact alookup_apush_self hms
  · intro g hg
    rw [hstep]
    exact alookup_apush_ne st.fileMap f g hg
  · intro events r hr
    simp only [parseContentOutput, List.mem_map] at hr
    obtain ⟨e, he, rfl⟩ := hr
    have hlen := (List.mem_filter.mp he).2
    simp only [decide_eq_true_eq] at hlen
    intro hnil
    have h2 : e.2 = [] := hnil
    rw [h2] at hlen
    exact Nat.lt_irrefl 0 hlen

/-- C3 (witness): a match event with line number 4, text `hit ` and
first submatch start 2, arriving while `f.txt` is current with an
empty group. -/
theorem c3_content_match_fields_witness :
    alookup (contentStep "/ws" { pattern := "x" }
        { fileMap := [("f.txt", [])], currentFile := some "f.txt",
          contextMap := [] }
        (.matchEv 4 "hit " [2])).fileMap "f.txt" =
      some ([] ++ [({ line := 4, content := jsTrimEnd "hit ",
                      column := if ({ pattern := "x" } : GrepOptions).flagN
                                  ≠ some false
                                then some (2 + 1) else none,
                      beforeContext := none,
                      afterContext := none } : GrepMatch)]) :=
  (c3_content_match_fields "/ws" { pattern := "x" }
    { fileMap := [("f.txt", [])], currentFile := some "f.txt",
      contextMap := [] }
    "f.txt" [] 4 "hit " 2 [] rfl (by decide) (by decide)).1

/-- C9: the content parser is total on malformed and out-of-order
input: a match or context event arriving before any begin event leaves
the state unchanged (silently dropped); a begin event for an
already-seen file path keeps the file map unchanged and merely
re-selects that path as current, so subsequent matches append to the
existing group instead of a duplicate one; and the returned result
never lists the same file path twice. -/
theorem c9_out_of_order (ws : String) (opts : GrepOptions)
    (st : ContentState) (ln : Nat) (txt : String) (subs : List Nat)
    (p : String) (events : List RgEvent) :
    (st.currentFile = none →
      contentStep ws opts st (.matchEv ln txt subs) = st ∧
      contentStep ws opts st (.contextEv ln txt) = st) ∧
    (ahas st.fileMap (posixRelative ws p) = true →
      (contentStep ws opts st (.beginEv p)).fileMap = st.fileMap ∧
      (contentStep ws opts st (.beginEv p)).currentFile =
        some (posixRelative ws p)) ∧
    ((parseContentOutput ws opts events).map GrepContentResult.path).Nodup := by
  refine ⟨?_, ?_, ?_⟩
  · intro h
    constructor <;> simp [contentStep, h]
  · intro h
    constructor <;> simp [contentStep, h]
  · have hkeys := @foldl_keys_nodup ws opts events initialContentState
      (by simp [initialContentState])
    have hmaps : (parseContentOutput ws opts events).map GrepContentResult.path
        = (((events.foldl (contentStep ws opts)
              initialContentState).fileMap.filter
            (fun e => decide (0 < e.2.length))).map Prod.fst) := by
      simp only [parseContentOutput, List.map_map]
      rfl
    rw [hmaps]
    exact List.Nodup.sublist ((List.filter_sublist _).map Prod.fst) hkeys

/-- C9 (witness): a repeated begin event for `f.txt` (already holding
one match) leaves the file map unchanged. -/
theorem c9_out_of_order_witness :
    (contentStep "/ws" { pattern := "x" }
        { fileMap := [("f.txt", [{ line := 1, content := "a" }])],
          currentFile := none, contextMap := [] }
        (.beginEv "/ws/f.txt")).fileMap =
      [("f.txt", [{ line := 1, content := "a" }])] :=
  ((c9_out_of_order "/ws" { pattern := "x" }
      { fileMap := [("f.txt", [{ line := 1, content := "a" }])],
        currentFile := none, contextMap := [] }
      0 "" [] "/ws/f.txt" []).2.1 (by decide)).1

/-- C10: in content mode the `"-n"` option controls exactly the column
field: a returned record's column is `none` iff `"-n"` is literally
`false` (leaving it unset, or setting it to `true`, keeps the column),
and parsing with `"-n" := false` yields precisely the result of the
original options with every column erased — the line and content
fields are present in every record regardless of the options. -/
theorem c10_line_number_flag (ws : String) (opts : GrepOptions)
    (events : List RgEvent) :
    (∀ r ∈ parseContentOutput ws opts events, ∀ m ∈ r.«matches»,
      (m.column = none ↔ opts.flagN = some false)) ∧
    parseContentOutput ws { opts with flagN := some false } events =
      (parseContentOutput ws opts events).map eraseColR := by
  constructor
  · refine parseContentOutput_matchPred ?_ events
    intro ln txt subs
    by_cases hn : opts.flagN = some false <;> simp [buildMatch, hn]
  · have hfold := foldl_eraseCol ws opts events initialContentState
    have hinit : eraseColState initialContentState = initialContentState := rfl
    rw [hinit] at hfold
    simp only [parseContentOutput, hfold, eraseColState]
    exact filterMk_map_erase _

/-- C10 (witness): with `"-n"` unset, the single match produced for
`f.txt` keeps its column. -/
theorem c10_line_number_flag_witness :
    (({ line := 1, content := "x", column := some 1 } : GrepMatch).column
        = none) ↔ ({ pattern := "x" } : GrepOptions).flagN = some false :=
  (c10_line_number_flag "/ws" { pattern := "x" }
      [.beginEv "/ws/f.txt", .matchEv 1 "x" [0]]).1
    { path := "f.txt",
      «matches» := [{ line := 1, content := "x", column := some 1 }] }
    (by decide) { line := 1, content := "x", column := some 1 } (by decide)

/-- C6 (counterexample): with an after-context window requested
(`"-A" = 1`), a context event following the match of a begun file
leaves the returned record with no context attached: `beforeContext`
and `afterContext` are `none` instead of carrying the context line, as
the claim would require. -/
theorem c6_context_counterexample :
    parseContentOutput "/ws" { pattern := "hit", flagA := some 1 }
      [.beginEv "/ws/f.txt", .matchEv 2 "hit" [0], .contextEv 3 "ctx"] =
    [{ path := "f.txt",
       «matches» := [{ line := 2, content := "hit", column := some 1,
                       beforeContext := none, afterContext := none }] }] := by
  decide

/-- C6 (amended): context events never influence the content result:
removing every context event from the raw stream yields exactly the
same result, and no returned match record ever carries beforeContext
or afterContext lines — the parser collects context events into a side
map it never reads, instead of associating them with the nearest
enclosing match. -/
theorem c6_context_amended (ws : String) (opts : GrepOptions)
    (events : List RgEvent) :
    parseContentOutput ws opts (events.filter (fun e => !isContextEv e)) =
      parseContentOutput ws opts events ∧
    (∀ r ∈ parseContentOutput ws opts events, ∀ m ∈ r.«matches»,
      m.beforeContext = none ∧ m.afterContext = none) := by
  constructor
  · obtain ⟨h1, _⟩ := foldl_filter_context ws opts events
      initialContentState initialContentState rfl rfl
    simp only [parseContentOutput, h1]
  · refine parseContentOutput_matchPred ?_ events
    intro ln txt subs
    exact ⟨rfl, rfl⟩

/-- C6 (witness): the record returned for `f.txt` carries no context
lines although a context event was present in the stream. -/
theorem c6_context_amended_witness :
    ({ line := 2, content := "hit",
       column := some 1 } : GrepMatch).beforeContext = none ∧
    ({ line := 2, content := "hit",
       column := some 1 } : GrepMatch).afterContext = none :=
  (c6_context_amended "/ws" { pattern := "hit", flagA := some 1 }
      [.beginEv "/ws/f.txt", .matchEv 2 "hit" [0], .contextEv 3 "ctx"]).2
    { path := "f.txt",
      «matches» := [{ line := 2, content := "hit", column := some 1 }] }
    (by decide) { line := 2, content := "hit", column := some 1 } (by decide)

/-- C5 (counterexample): searching the subdirectory `sub` with the
pattern `*`, the file `sub/a.txt` matches (its path relative to the
searched base has no `/`), but the call returns the path relative to
the workspace root, which contains `/` — contradicting the claim for
a base directory other than the root itself. -/
theorem c5_star_counterexample :
    globOp (fun p => if p = "/ws/sub" then .dir else .absent)
        ["/ws/sub/a.txt"] "/ws" "*" (some "sub") = .ok ["sub/a.txt"] ∧
    '/' ∈ ("sub/a.txt" : String).data :=
  ⟨by decide, by decide⟩

/-- C5 (amended): when the base directory is the workspace root
itself, `match(base, "*")` never returns a path containing `/`;
`match(base, "**/*")` does return such paths whenever a file lies in a
subdirectory (and its relative path has no line terminators); and in
general every returned path is the workspace-root-relative form of a
file under the searched base that matched relative to that base — so
for a subdirectory base the returned paths carry the subdirectory
prefix. -/
theorem c5_star_amended :
    (∀ (files : List String) (ws r : String),
      r ∈ globCollect files ws ws "*" → '/' ∉ r.data) ∧
    (∀ (files : List String) (ws f : String),
      f ∈ files → isUnder ws f = true →
      '/' ∈ (posixRelative ws f).data →
      (∀ c ∈ (posixRelative ws f).data, jsDot c = true) →
      posixRelative ws f ∈ globCollect files ws ws "**/*" ∧
      '/' ∈ (posixRelative ws f).data) ∧
    (∀ (files : List String) (basePath ws pattern r : String),
      r ∈ globCollect files basePath ws pattern →
      ∃ f ∈ files, isUnder basePath f = true ∧
        globRegexTest pattern (posixRelative basePath f) = true ∧
        r = posixRelative ws f) := by
  refine ⟨?_, ?_, ?_⟩
  · intro files ws r hr
    simp only [globCollect, mem_jsSort, List.mem_map] at hr
    obtain ⟨f, hf, rfl⟩ := hr
    have hfl := (List.mem_filter.mp hf).2
    have htoks : globToRegexToks ("*" : String).data = [GlobTok.star] := by
      decide
    rw [globRegexTest, htoks] at hfl
    exact starLoop_noslash hfl
  · intro files ws f hf hunder hslash hdot
    refine ⟨?_, hslash⟩
    have h1 : f ∈ files.filter (fun g => isUnder ws g) :=
      List.mem_filter.mpr ⟨hf, hunder⟩
    have htoks : globToRegexToks ("**/*" : String).data =
        [GlobTok.dstarSlash, GlobTok.star] := by decide
    have h2 : globRegexTest "**/*" (posixRelative ws f) = true := by
      rw [globRegexTest, htoks]
      exact regexAccept_dstarSlash_star hdot
    have h3 : f ∈ (files.filter (fun g => isUnder ws g)).filter
        (fun g => globRegexTest "**/*" (posixRelative ws g)) :=
      List.mem_filter.mpr ⟨h1, h2⟩
    simp only [globCollect, mem_jsSort, List.mem_map]
    exact ⟨f, h3, rfl⟩
  · intro files basePath ws pattern r hr
    simp only [globCollect, mem_jsSort, List.mem_map] at hr
    obtain ⟨f, hf, rfl⟩ := hr
    obtain ⟨h1, h2⟩ := List.mem_filter.mp hf
    obtain ⟨h0, hu⟩ := List.mem_filter.mp h1
    exact ⟨f, h0, hu, h2, rfl⟩

/-- C5 (witness): for the file `/ws/sub/a.txt` under the root `/ws`,
the pattern `**/*` returns the root-relative path, which contains a
separator. -/
theorem c5_star_amended_witness :
    posixRelative "/ws" "/ws/sub/a.txt" ∈
      globCollect ["/ws/sub/a.txt"] "/ws" "/ws" "**/*" :=
  (c5_star_amended.2.1 ["/ws/sub/a.txt"] "/ws" "/ws/sub/a.txt"
    (by decide) (by decide) (by decide) (by decide)).1

/-- C8: every documented precondition violation surfaces as a
structured error with the exact contract string: glob returns
`Pattern is required` on an empty pattern, the path-traversal message
when the normalized base fails the prefix check, and `Directory not
found: <relPath>` / `Not a directory: <relPath>` from the stat of the
base; grep returns `pattern is required`, `Invalid regex pattern:
<detail>` with the thrown detail, and `Search path must be within
workspace` when its resolved-path check fails.  No error is thrown
past the boundary: both operations are total functions into the
result type. -/
theorem c8_error_strings (stat : String → FsStat) (files : List String)
    (ws pattern : String) (sp : Option String)
    (rc : String → Option String) (dec : String → RgEvent)
    (spawn : SpawnOutcome) (opts : GrepOptions) (detail : String) :
    globOp stat files ws "" sp = .err "Pattern is required" ∧
    (pattern ≠ "" →
      strStartsWith (posixNormalize (globBasePath ws sp))
          (posixNormalize ws) = false →
      globOp stat files ws pattern sp =
        .err "Path traversal detected: path must be within workspace") ∧
    (pattern ≠ "" →
      strStartsWith (posixNormalize (globBasePath ws sp))
          (posixNormalize ws) = true →
      stat (globBasePath ws sp) = .absent →
      globOp stat files ws pattern sp =
        .err ("Directory not found: " ++ spDisplay sp)) ∧
    (pattern ≠ "" →
      strStartsWith (posixNormalize (globBasePath ws sp))
          (posixNormalize ws) = true →
      stat (globBasePath ws sp) = .file →
      globOp stat files ws pattern sp =
        .err ("Not a directory: " ++ spDisplay sp)) ∧
    grepOp rc dec spawn ws { opts with pattern := "" } =
      .err "pattern is required" ∧
    (opts.pattern ≠ "" → rc opts.pattern = some detail →
      grepOp rc dec spawn ws opts =
        .err ("Invalid regex pattern: " ++ detail)) ∧
    (opts.pattern ≠ "" → rc opts.pattern = none →
      strStartsWith (posixResolveAbs (grepSearchPath ws opts.path))
          (posixResolveAbs ws) = false →
      grepOp rc dec spawn ws opts =
        .err "Search path must be within workspace") := by
  refine ⟨?_, ?_, ?_, ?_, ?_, ?_, ?_⟩
  · simp [globOp]
  · intro hp hsw
    simp [globOp, hp, hsw]
  · intro hp hsw hstat
    simp [globOp, hp, hsw, hstat]
  · intro hp hsw hstat
    simp [globOp, hp, hsw, hstat]
  · simp [grepOp]
  · intro hp hrc
    simp [grepOp, hp, hrc]
  · intro hp hrc hsw
    simp [grepOp, hp, hrc, hsw]

/-- C8 (witness): a traversal to an ancestor directory yields the
verbatim glob traversal message. -/
theorem c8_error_strings_witness :
    globOp (fun _ => .dir) [] "/ws" "*" (some "../../x") =
      .err "Path traversal detected: path must be within workspace" :=
  (c8_error_strings (fun _ => .dir) [] "/ws" "*" (some "../../x")
      (fun _ => none) (fun _ => .invalid) (.exited 0 [] "")
      { pattern := "x" } "d").2.1 (by decide) (by decide)

end Toolkit
